import Mathlib

/-!
# Verification of the attempt scheduler and result-aggregation engine

Shallow embedding of the core of the eval framework:
* runner.ts  : runAttempt / runExperiment (attempt scheduling, abort
  classification, per-fixture reconciliation of counted runs)
* results.ts : agentResultToEvalRunData / createEvalSummary / saveResults
* cli.ts     : process exit code derived from the summaries
* agents/claude-code.ts : the catch-all boundary of Agent.run

Numbers are modelled by ℚ (JS numbers on the code paths in scope only add,
divide and compare).  Durations are milliseconds in AgentRunResult and
seconds (divided by 1000) in EvalRunResult, as in the source.

Concurrency is modelled by making the environment explicit: for each
attempt the environment supplies (a) whether the fixture's shared abort
signal was already set when the attempt started and (b) the result the
agent returns for the signal option it is handed.  The global results
list of Promise.all preserves the order of the attempts array (fixture
major, run index minor), which the model reflects.
-/

/-- Status of one eval run ('passed' | 'failed' in types.ts). -/
inductive RunStatus
  | passed
  | failed
deriving DecidableEq

/-- EvalRunResult from types.ts: status, optional error text, duration in
seconds.  The transcriptPath/outputPaths fields only exist in the copy
serialized by saveResults and are modelled there (ResultJson). -/
structure EvalRunResult where
  status : RunStatus
  error : Option String
  duration : ℚ
deriving DecidableEq

/-- outputContent of EvalRunData: optional EVAL test output plus optional
map of script name to captured output (modelled as an association list). -/
structure OutputContent where
  evalOutput : Option String
  scripts : Option (List (String × String))
deriving DecidableEq

/-- EvalRunData from types.ts: the result plus raw transcript and output
content (content, not paths). -/
structure EvalRunData where
  result : EvalRunResult
  transcript : Option String
  outputContent : Option OutputContent
deriving DecidableEq

/-- AgentRunResult from agents/types.ts, restricted to the fields the
runner and results modules read: success flag, raw output, optional error
text, duration in milliseconds, optional transcript, optional EVAL test
output and the per-script outputs. -/
structure AgentRunResult where
  success : Bool
  output : String
  error : Option String
  duration : ℚ
  transcript : Option String
  testOutput : Option String
  scriptsOutputs : List (String × String)
deriving DecidableEq

/-- AttemptResult from runner.ts: fixture name, run index, run data and
the aborted flag. -/
structure AttemptResult where
  fixtureName : String
  runIndex : Nat
  runData : EvalRunData
  aborted : Bool
deriving DecidableEq

/-- JS truthiness of an optional string: undefined and the empty string
are falsy. -/
def isTruthy : Option String → Bool
  | none => false
  | some s => !(s == "")

/-- agentResultToEvalRunData (results module accompanying runner.ts):
status from the success flag, error passed through, duration converted
from milliseconds to seconds; outputContent collects the truthy EVAL test
output and, when scriptsResults has keys, the truthy script outputs; the
whole record is omitted when it would have no keys. -/
def agentResultToEvalRunData (r : AgentRunResult) : EvalRunData :=
  let evalOut : Option String := if isTruthy r.testOutput then r.testOutput else none
  let scripts : Option (List (String × String)) :=
    if r.scriptsOutputs.length > 0 then
      some (r.scriptsOutputs.filter (fun p => !(p.2 == "")))
    else none
  { result :=
      { status := if r.success then RunStatus.passed else RunStatus.failed
      , error := r.error
      , duration := r.duration / 1000 }
  , transcript := r.transcript
  , outputContent :=
      if evalOut.isNone ∧ scripts.isNone then none else some ⟨evalOut, scripts⟩ }

/-- The signal option handed to the agent (runner.ts line 126):
the fixture's controller signal when earlyExit is enabled, undefined
otherwise. -/
def attemptSignal {σ : Type} (earlyExit : Bool) (sig : σ) : Option σ :=
  if earlyExit then some sig else none

/-- The run data the scheduler fabricates for an aborted attempt
(runner.ts lines 110-112 and 134-136): failed status, error text
'Aborted', the given duration, no transcript, no outputs. -/
def abortedRunData (d : ℚ) : EvalRunData :=
  { result := { status := RunStatus.failed, error := some "Aborted", duration := d }
  , transcript := none
  , outputContent := none }

/-- runAttempt from runner.ts (lines 101-156).  If the fixture's signal is
already aborted the attempt returns immediately (aborted, zero duration)
without invoking the agent.  Otherwise the agent is invoked with the
signal attached only when earlyExit is enabled; a returned error of
exactly 'Aborted' or 'Aborted before start' marks the outcome aborted,
anything else is converted through agentResultToEvalRunData. -/
def runAttempt {σ : Type} (earlyExit : Bool) (sig : σ) (alreadyAborted : Bool)
    (agent : Option σ → AgentRunResult) (fxName : String) (runIndex : Nat) :
    AttemptResult :=
  if alreadyAborted then
    { fixtureName := fxName, runIndex := runIndex
    , runData := abortedRunData 0, aborted := true }
  else
    let agentResult := agent (attemptSignal earlyExit sig)
    if agentResult.error = some "Aborted" ∨ agentResult.error = some "Aborted before start" then
      { fixtureName := fxName, runIndex := runIndex
      , runData := abortedRunData (agentResult.duration / 1000), aborted := true }
    else
      { fixtureName := fxName, runIndex := runIndex
      , runData := agentResultToEvalRunData agentResult, aborted := false }

/-- Order on attempt results used by the reconciliation sort
(runner.ts line 179: sort by run index ascending). -/
def byRunIndex (a b : AttemptResult) : Prop := a.runIndex ≤ b.runIndex

instance : DecidableRel byRunIndex := fun a b => Nat.decLe a.runIndex b.runIndex

instance : IsTotal AttemptResult byRunIndex := ⟨fun a b => Nat.le_total a.runIndex b.runIndex⟩

instance : IsTrans AttemptResult byRunIndex := ⟨fun _ _ _ => Nat.le_trans⟩

/-- The stable sort by run index.  JS Array.prototype.sort with the
comparator (a, b) => a.runIndex - b.runIndex is a stable sort under the
total preorder byRunIndex; insertionSort with byRunIndex is the same
stable sort. -/
def sortByRunIndex (l : List AttemptResult) : List AttemptResult :=
  List.insertionSort byRunIndex l

/-- The walk of runner.ts lines 181-189 at the level of attempt results:
include each element, stopping immediately after the first one whose
status is passed when earlyExit is enabled. -/
def countAttempts (earlyExit : Bool) : List AttemptResult → List AttemptResult
  | [] => []
  | r :: rs =>
    if earlyExit ∧ r.runData.result.status = RunStatus.passed then [r]
    else r :: countAttempts earlyExit rs

/-- The walk of runner.ts lines 181-189 as written: build the run-data
list, breaking after the first pass when earlyExit is enabled. -/
def countRunData (earlyExit : Bool) : List AttemptResult → List EvalRunData
  | [] => []
  | r :: rs =>
    if earlyExit ∧ r.runData.result.status = RunStatus.passed then [r.runData]
    else r.runData :: countRunData earlyExit rs

/-- One fixture's counted attempt results: drop aborted outcomes
(runner.ts lines 167-171), sort by run index, truncate at the first pass
when earlyExit is enabled. -/
def fixtureCountedAttempts (earlyExit : Bool) (l : List AttemptResult) :
    List AttemptResult :=
  countAttempts earlyExit (sortByRunIndex (l.filter (fun r => !r.aborted)))

/-- One fixture's counted run-data sequence exactly as runner.ts computes
it (lines 167-189). -/
def fixtureCounted (earlyExit : Bool) (l : List AttemptResult) : List EvalRunData :=
  countRunData earlyExit (sortByRunIndex (l.filter (fun r => !r.aborted)))

/-- EvalSummary from types.ts. -/
structure EvalSummary where
  name : String
  totalRuns : Nat
  passedRuns : Nat
  passRate : ℚ
  meanDuration : ℚ
  runs : List EvalRunData
deriving DecidableEq

/-- createEvalSummary from results.ts lines 59-72, verbatim: lengths,
filtered pass count, reduce of durations, guarded divisions. -/
def createEvalSummary (name : String) (runData : List EvalRunData) : EvalSummary :=
  let runs := runData.map (fun r => r.result)
  let passedRuns := (runs.filter (fun r => r.status = RunStatus.passed)).length
  let totalDuration := runs.foldl (fun sum r => sum + r.duration) 0
  { name := name
  , totalRuns := runs.length
  , passedRuns := passedRuns
  , passRate := if runs.length > 0 then ((passedRuns : ℚ) / (runs.length : ℚ)) * 100 else 0
  , meanDuration := if runs.length > 0 then totalDuration / (runs.length : ℚ) else 0
  , runs := runData }

/-- One fixture's attempts as launched by runExperiment: run indices 0 to
runs-1, each executed by runAttempt.  The fixture's AbortController is
only ever aborted under config.earlyExit (runner.ts line 146), so the
already-aborted check can fire only when earlyExit is enabled; the
environment supplies the timing-dependent bit abortedAtStart and the
agent's response per attempt.  Promise.all preserves attempt order, so
the per-fixture results arrive in run-index order. -/
def runFixture (earlyExit : Bool) (fxName : String) (runs : Nat)
    (abortedAtStart : Nat → Bool) (agent : Nat → Option Unit → AgentRunResult) :
    List AttemptResult :=
  (List.range runs).map (fun i =>
    runAttempt earlyExit () (earlyExit && abortedAtStart i) (agent i) fxName i)

/-- runExperiment's pure core (runner.ts lines 84-196): per fixture, run
all attempts, drop aborted outcomes, sort, truncate at the first pass
under earlyExit, and summarize. -/
def runExperimentModel (earlyExit : Bool) (runs : Nat) (fixtures : List String)
    (abortedAtStart : String → Nat → Bool)
    (agent : String → Nat → Option Unit → AgentRunResult) : List EvalSummary :=
  fixtures.map (fun fx =>
    createEvalSummary fx
      (fixtureCounted earlyExit (runFixture earlyExit fx runs (abortedAtStart fx) (agent fx))))

/-- cli.ts lines 354-356: exit 0 when every fixture's summary has
passedRuns equal to totalRuns, exit 1 otherwise. -/
def processExitCode (evals : List EvalSummary) : Nat :=
  if evals.all (fun e => e.passedRuns == e.totalRuns) then 0 else 1

/-- Spec-worded reconciliation, step 1: discard every outcome flagged
aborted. -/
def specDiscardAborted (l : List AttemptResult) : List AttemptResult :=
  l.filter (fun r => !r.aborted)

/-- Spec-worded reconciliation, step 2: sort the remainder by runIndex
ascending (the spec fixes the order only up to stability; the stable sort
is used, matching the scheduler). -/
def specSortByRunIndex (l : List AttemptResult) : List AttemptResult :=
  List.insertionSort byRunIndex l

/-- Spec-worded reconciliation, step 3: walk the sorted sequence,
including each outcome, and stop immediately after including the first
outcome whose status is passed, but only when earlyExit is enabled; when
earlyExit is disabled include the entire sequence. -/
def specTruncateAtFirstPass (earlyExit : Bool) : List AttemptResult → List AttemptResult
  | [] => []
  | r :: rs =>
    if r.runData.result.status = RunStatus.passed ∧ earlyExit then [r]
    else r :: specTruncateAtFirstPass earlyExit rs

/-- The spec's counted sequence for one fixture, §4.2 of the spec. -/
def specCountedOutcomes (earlyExit : Bool) (l : List AttemptResult) :
    List AttemptResult :=
  specTruncateAtFirstPass earlyExit (specSortByRunIndex (specDiscardAborted l))

/-- What the body of agents/claude-code.ts run does, abstracted over the
outcome of its try block: either a normal return value or a raised error
message. -/
inductive AgentBody
  | ok (r : AgentRunResult)
  | err (msg : String)
deriving DecidableEq

/-- Agent.run of agents/claude-code.ts (lines 68-235).  An already-aborted
signal returns 'Aborted before start' before the try block (lines 84-94),
so the finally does not run there.  An error raised in the try body is
caught at the boundary (lines 207-224) and converted into a failed result
carrying the error text, or into 'Aborted' when the abort flag was raised
while the body ran.  The finally block (lines 225-233) then runs an
unguarded 'await sandbox.stop()' whenever a sandbox exists and was not
already stopped by the abort handler (which guards the same call with a
swallowed catch); a rejection there replaces the value being returned and
Agent.run itself rejects — hence the Except result.  stopsInFinally says
whether that teardown call is reached, stopError whether it rejects and
with what message. -/
def claudeCodeRun (signalProvided signalAlreadyAborted abortFlag stopsInFinally : Bool)
    (body : AgentBody) (stopError : Option String) (elapsedMs : ℚ)
    (partialOutput : String) : Except String AgentRunResult :=
  if signalProvided && signalAlreadyAborted then
    Except.ok
      { success := false, output := "", error := some "Aborted before start"
      , duration := 0, transcript := none, testOutput := none, scriptsOutputs := [] }
  else
    let tryResult : AgentRunResult :=
      match body with
      | AgentBody.ok r => r
      | AgentBody.err msg =>
        if abortFlag then
          { success := false, output := partialOutput, error := some "Aborted"
          , duration := elapsedMs, transcript := none, testOutput := none
          , scriptsOutputs := [] }
        else
          { success := false, output := partialOutput, error := some msg
          , duration := elapsedMs, transcript := none, testOutput := none
          , scriptsOutputs := [] }
    if stopsInFinally then
      match stopError with
      | some msg => Except.error msg
      | none => Except.ok tryResult
    else Except.ok tryResult

/-- runAttempt from runner.ts over an agent whose run promise may reject
(lines 101-156; note there is no try/catch in runAttempt): a rejection of
agent.run propagates out of the attempt. -/
def runAttemptE {σ : Type} (earlyExit : Bool) (sig : σ) (alreadyAborted : Bool)
    (agent : Option σ → Except String AgentRunResult) (fxName : String)
    (runIndex : Nat) : Except String AttemptResult :=
  if alreadyAborted then
    Except.ok
      { fixtureName := fxName, runIndex := runIndex
      , runData := abortedRunData 0, aborted := true }
  else
    match agent (attemptSignal earlyExit sig) with
    | Except.error msg => Except.error msg
    | Except.ok agentResult =>
      if agentResult.error = some "Aborted" ∨
          agentResult.error = some "Aborted before start" then
        Except.ok
          { fixtureName := fxName, runIndex := runIndex
          , runData := abortedRunData (agentResult.duration / 1000), aborted := true }
      else
        Except.ok
          { fixtureName := fxName, runIndex := runIndex
          , runData := agentResultToEvalRunData agentResult, aborted := false }

/-- Promise.all semantics over fallible attempts: the whole batch rejects
as soon as any attempt rejects, otherwise yields all results in attempt
order. -/
def sequenceExcept {α : Type} : List (Except String α) → Except String (List α)
  | [] => Except.ok []
  | Except.error e :: _ => Except.error e
  | Except.ok a :: rest =>
    match sequenceExcept rest with
    | Except.error e => Except.error e
    | Except.ok as => Except.ok (a :: as)

/-- runExperiment (runner.ts lines 84-196) over fallible attempts: all
attempts of all fixtures go through one Promise.all (line 159), so a
single rejection aborts the whole experiment with no summaries at all;
otherwise the results are grouped by fixture name (lines 162-171) and
reconciled as usual. -/
def runExperimentE (earlyExit : Bool) (runs : Nat) (fixtures : List String)
    (abortedAtStart : String → Nat → Bool)
    (agent : String → Nat → Option Unit → Except String AgentRunResult) :
    Except String (List EvalSummary) :=
  match sequenceExcept (fixtures.flatMap (fun fx => (List.range runs).map (fun i =>
      runAttemptE earlyExit () (earlyExit && abortedAtStart fx i) (agent fx i) fx i))) with
  | Except.error e => Except.error e
  | Except.ok results =>
    Except.ok (fixtures.map (fun fx =>
      createEvalSummary fx
        (fixtureCounted earlyExit (results.filter (fun r => r.fixtureName == fx)))))

/-- The outputPaths object written into result.json (types.ts
EvalRunResult.outputPaths): optional EVAL output path plus per-script
paths. -/
structure OutputPaths where
  evalPath : Option String
  scripts : List (String × String)
deriving DecidableEq

/-- The JSON document saveResults writes as result.json (runner.ts lines
380-421): the run result plus relative path references, never raw
content. -/
structure ResultJson where
  status : RunStatus
  error : Option String
  duration : ℚ
  transcriptPath : Option String
  outputPaths : Option OutputPaths
deriving DecidableEq

/-- A file written by saveResults: raw content (transcript or captured
output) or one of the two JSON documents.  The passRate of summary.json
is serialized as a percentage string in the source; the number itself is
carried here. -/
inductive FileEntry
  | raw (content : String)
  | jsonResult (r : ResultJson)
  | jsonSummary (totalRuns passedRuns : Nat) (passRate meanDuration : ℚ)
deriving DecidableEq

/-- File paths inside the experiment directory, as segment lists. -/
abbrev FilePath' := List String

/-- The script outputs saveResults writes for one run: the entries of
outputContent.scripts with truthy content (runner.ts lines 402-411). -/
def savedScriptEntries (rd : EvalRunData) : List (String × String) :=
  match rd.outputContent with
  | none => []
  | some oc =>
    match oc.scripts with
    | none => []
    | some entries => entries.filter (fun p => !(p.2 == ""))

/-- The transcriptPath field of result.json: set exactly when a truthy
transcript was written (runner.ts lines 383-386). -/
def runTranscriptPath (rd : EvalRunData) : Option String :=
  if isTruthy rd.transcript then some "./transcript.jsonl" else none

/-- The eval entry of outputPaths: set exactly when truthy EVAL output
was written (runner.ts lines 396-399). -/
def runEvalPath (rd : EvalRunData) : Option String :=
  match rd.outputContent with
  | none => none
  | some oc => if isTruthy oc.evalOutput then some "./outputs/eval.txt" else none

/-- The script entries of outputPaths, one per written script output
(runner.ts lines 402-411). -/
def runScriptPaths (rd : EvalRunData) : List (String × String) :=
  (savedScriptEntries rd).map (fun p => (p.1, "./outputs/" ++ p.1 ++ ".txt"))

/-- The result.json document for one run (runner.ts lines 380-421):
the run result, the transcript path when a transcript was written, and
outputPaths when the EVAL output or at least one script output was
written. -/
def runResultJson (rd : EvalRunData) : ResultJson :=
  { status := rd.result.status
  , error := rd.result.error
  , duration := rd.result.duration
  , transcriptPath := runTranscriptPath rd
  , outputPaths :=
      if (runEvalPath rd).isSome || !(runScriptPaths rd).isEmpty then
        some { evalPath := runEvalPath rd, scripts := runScriptPaths rd }
      else none }

/-- The files saveResults writes for run number n (1-based), runner.ts
lines 374-423: transcript.jsonl when a truthy transcript exists, one
outputs file per truthy output, and result.json carrying only path
references. -/
def saveRun (n : Nat) (rd : EvalRunData) : List (FilePath' × FileEntry) :=
  let dir := "run-" ++ toString n
  let transcriptWrites : List (FilePath' × FileEntry) :=
    if isTruthy rd.transcript then
      [([dir, "transcript.jsonl"], FileEntry.raw (rd.transcript.getD ""))]
    else []
  let evalWrites : List (FilePath' × FileEntry) :=
    match rd.outputContent with
    | none => []
    | some oc =>
      if isTruthy oc.evalOutput then
        [([dir, "outputs", "eval.txt"], FileEntry.raw (oc.evalOutput.getD ""))]
      else []
  let scriptWrites : List (FilePath' × FileEntry) :=
    (savedScriptEntries rd).map
      (fun p => ([dir, "outputs", p.1 ++ ".txt"], FileEntry.raw p.2))
  transcriptWrites ++ evalWrites ++ scriptWrites ++
    [([dir, "result.json"], FileEntry.jsonResult (runResultJson rd))]

/-- The files saveResults writes for one fixture's summary (runner.ts
lines 357-423): summary.json plus each run's files under run-(i+1). -/
def saveEvalSummary (s : EvalSummary) : List (FilePath' × FileEntry) :=
  ([s.name, "summary.json"],
      FileEntry.jsonSummary s.totalRuns s.passedRuns s.passRate s.meanDuration) ::
    (List.range s.runs.length).flatMap
      (fun i => (saveRun (i + 1) (s.runs.getD i (abortedRunData 0))).map
        (fun w => (s.name :: w.1, w.2)))

/-- All files saveResults writes below the timestamped experiment
directory (runner.ts lines 346-427; the constant prefix directory is
omitted). -/
def saveResultsModel (evals : List EvalSummary) : List (FilePath' × FileEntry) :=
  evals.flatMap saveEvalSummary

theorem status_eq_failed_of_ne_passed {s : RunStatus} (h : s ≠ RunStatus.passed) :
    s = RunStatus.failed := by
  cases s with
  | passed => exact absurd rfl h
  | failed => rfl

theorem countRunData_eq_map (e : Bool) (l : List AttemptResult) :
    countRunData e l = (countAttempts e l).map (fun r => r.runData) := by
  induction l with
  | nil => rfl
  | cons r rs ih =>
    by_cases h : e = true ∧ r.runData.result.status = RunStatus.passed
    · simp [countRunData, countAttempts, h]
    · simp only [countRunData, countAttempts]
      rw [if_neg (by simpa using h), if_neg (by simpa using h)]
      simp [ih]

theorem countAttempts_eq_specTruncate (e : Bool) (l : List AttemptResult) :
    countAttempts e l = specTruncateAtFirstPass e l := by
  induction l with
  | nil => rfl
  | cons r rs ih =>
    by_cases h : e = true ∧ r.runData.result.status = RunStatus.passed
    · simp only [countAttempts, specTruncateAtFirstPass]
      rw [if_pos (by simpa using h), if_pos (by exact ⟨h.2, h.1⟩)]
    · simp only [countAttempts, specTruncateAtFirstPass]
      rw [if_neg (by simpa using h), if_neg (fun h2 => h ⟨h2.2, h2.1⟩), ih]

theorem countRunData_false (l : List AttemptResult) :
    countRunData false l = l.map (fun r => r.runData) := by
  induction l with
  | nil => rfl
  | cons r rs ih => simp [countRunData, ih]

theorem countAttempts_prefixOf (e : Bool) (l : List AttemptResult) :
    countAttempts e l <+: l := by
  induction l with
  | nil => exact ⟨[], rfl⟩
  | cons r rs ih =>
    by_cases h : e = true ∧ r.runData.result.status = RunStatus.passed
    · refine ⟨rs, ?_⟩
      simp only [countAttempts]
      rw [if_pos (by simpa using h)]
      rfl
    · obtain ⟨t, ht⟩ := ih
      refine ⟨t, ?_⟩
      simp only [countAttempts]
      rw [if_neg (by simpa using h)]
      simpa using congrArg (fun x => r :: x) ht

theorem countAttempts_dropLast_failed (l : List AttemptResult) :
    ∀ x ∈ (countAttempts true l).dropLast, x.runData.result.status = RunStatus.failed := by
  induction l with
  | nil => intro x hx; simp [countAttempts] at hx
  | cons r rs ih =>
    by_cases h : r.runData.result.status = RunStatus.passed
    · intro x hx
      simp [countAttempts, h] at hx
    · have hc : countAttempts true (r :: rs) = r :: countAttempts true rs := by
        simp only [countAttempts]
        rw [if_neg (by simpa using h)]
      intro x hx
      rw [hc] at hx
      rcases hrec : countAttempts true rs with _ | ⟨y, ys⟩
      · rw [hrec] at hx; simp at hx
      · rw [hrec, List.dropLast_cons₂] at hx
        rcases List.mem_cons.mp hx with rfl | hx2
        · exact status_eq_failed_of_ne_passed h
        · exact ih x (by rw [hrec]; exact hx2)

theorem countAttempts_getLast_passed (l : List AttemptResult)
    (h : ∃ x ∈ countAttempts true l, x.runData.result.status = RunStatus.passed) :
    ∃ p, (countAttempts true l).getLast? = some p ∧
      p.runData.result.status = RunStatus.passed := by
  induction l with
  | nil => simp [countAttempts] at h
  | cons r rs ih =>
    by_cases hr : r.runData.result.status = RunStatus.passed
    · refine ⟨r, ?_, hr⟩
      simp only [countAttempts]
      rw [if_pos (by simpa using hr)]
      rfl
    · have hc : countAttempts true (r :: rs) = r :: countAttempts true rs := by
        simp only [countAttempts]
        rw [if_neg (by simpa using hr)]
      rw [hc] at h
      obtain ⟨x, hx, hxp⟩ := h
      rcases List.mem_cons.mp hx with rfl | hx2
      · exact absurd hxp hr
      · obtain ⟨p, hp1, hp2⟩ := ih ⟨x, hx2, hxp⟩
        refine ⟨p, ?_, hp2⟩
        rw [hc]
        rcases hrec : countAttempts true rs with _ | ⟨y, ys⟩
        · rw [hrec] at hx2; simp at hx2
        · rw [hrec] at hp1
          rw [List.getLast?_cons_cons]
          exact hp1

theorem sorted_le_getLast (l : List AttemptResult) :
    l.Sorted byRunIndex → ∀ p, l.getLast? = some p →
      ∀ x ∈ l, x.runIndex ≤ p.runIndex := by
  induction l with
  | nil => intro _ p hp; simp at hp
  | cons a t ih =>
    intro hs p hp x hx
    rcases t with _ | ⟨b, u⟩
    · simp at hp
      subst hp
      simp at hx
      subst hx
      exact Nat.le_refl _
    · rw [List.getLast?_cons_cons] at hp
      rcases List.mem_cons.mp hx with rfl | hx2
      · have hpmem : p ∈ b :: u := by
          obtain ⟨hne, hpe⟩ := List.mem_getLast?_eq_getLast (by rw [hp]; rfl)
          rw [hpe]
          exact List.getLast_mem hne
        exact List.rel_of_sorted_cons hs p hpmem
      · exact ih hs.of_cons p hp x hx2

theorem sorted_nodup_eq {l₁ l₂ : List AttemptResult} (hp : l₁.Perm l₂)
    (hs₁ : l₁.Sorted byRunIndex) (hs₂ : l₂.Sorted byRunIndex)
    (hnd : (l₁.map (fun r => r.runIndex)).Nodup) : l₁ = l₂ := by
  haveI : IsAntisymm AttemptResult (fun a b => a.runIndex < b.runIndex) :=
    ⟨fun a b h1 h2 => absurd h1 (Nat.lt_asymm h2)⟩
  have hnd₂ : (l₂.map (fun r => r.runIndex)).Nodup := ((hp.map _).nodup_iff).mp hnd
  have hlt₁ : l₁.Pairwise (fun a b => a.runIndex < b.runIndex) := by
    have h2 : l₁.Pairwise (fun a b => a.runIndex ≠ b.runIndex) := List.pairwise_map.mp hnd
    exact (hs₁.and h2).imp (fun h => Nat.lt_of_le_of_ne h.1 h.2)
  have hlt₂ : l₂.Pairwise (fun a b => a.runIndex < b.runIndex) := by
    have h2 : l₂.Pairwise (fun a b => a.runIndex ≠ b.runIndex) := List.pairwise_map.mp hnd₂
    exact (hs₂.and h2).imp (fun h => Nat.lt_of_le_of_ne h.1 h.2)
  exact List.eq_of_perm_of_sorted hp hlt₁ hlt₂

/-- Sample run data: a passing run. -/
def runDataPassed : EvalRunData :=
  { result := { status := RunStatus.passed, error := none, duration := 2 }
  , transcript := none, outputContent := none }

/-- Sample run data: a failing run. -/
def runDataFailed : EvalRunData :=
  { result := { status := RunStatus.failed, error := some "tests failed", duration := 3 }
  , transcript := none, outputContent := none }

/-- Sample outcome: run index 0 failed. -/
def outcomeA : AttemptResult :=
  { fixtureName := "fx", runIndex := 0, runData := runDataFailed, aborted := false }

/-- Sample outcome: run index 1 passed. -/
def outcomeB : AttemptResult :=
  { fixtureName := "fx", runIndex := 1, runData := runDataPassed, aborted := false }

/-- Sample outcome: run index 2, aborted. -/
def outcomeC : AttemptResult :=
  { fixtureName := "fx", runIndex := 2, runData := abortedRunData 1, aborted := true }

theorem runAttempt_runIndex {σ : Type} (e : Bool) (sig : σ) (ab : Bool)
    (agent : Option σ → AgentRunResult) (fx : String) (i : Nat) :
    (runAttempt e sig ab agent fx i).runIndex = i := by
  by_cases hab : ab
  · simp [runAttempt, hab]
  · by_cases hcond : (agent (attemptSignal e sig)).error = some "Aborted" ∨
        (agent (attemptSignal e sig)).error = some "Aborted before start"
    · simp [runAttempt, hab, hcond]
    · simp [runAttempt, hab, hcond]

theorem runFixture_runIndex_nodup (e : Bool) (fx : String) (runs : Nat)
    (ab : Nat → Bool) (agent : Nat → Option Unit → AgentRunResult) :
    ((specDiscardAborted (runFixture e fx runs ab agent)).map
      (fun r => r.runIndex)).Nodup := by
  have hmap : (runFixture e fx runs ab agent).map (fun r => r.runIndex) =
      List.range runs := by
    show ((List.range runs).map _).map _ = _
    rw [List.map_map]
    have : ∀ i ∈ List.range runs,
        ((fun r => AttemptResult.runIndex r) ∘ fun i =>
          runAttempt e () (e && ab i) (agent i) fx i) i = id i := by
      intro i _
      exact runAttempt_runIndex e () (e && ab i) (agent i) fx i
    rw [List.map_congr_left this, List.map_id]
  have hsub : List.Sublist
      ((specDiscardAborted (runFixture e fx runs ab agent)).map (fun r => r.runIndex))
      ((runFixture e fx runs ab agent).map (fun r => r.runIndex)) :=
    (List.filter_sublist _).map _
  rw [hmap] at hsub
  exact (List.nodup_range runs).sublist hsub

/-- C1: for every fixture's list of attempt outcomes, the scheduler's
counted sequence equals the spec's pipeline — discard outcomes flagged
aborted, sort the remainder by runIndex ascending, truncate right after
the first passed outcome only when earlyExit is enabled — and the counted
sequence depends only on the multiset of outcomes, not on completion
order: it is invariant under permutation whenever the non-aborted run
indices are pairwise distinct, which holds for every scheduler-produced
outcome list (third conjunct). -/
theorem c1_counted_matches_spec_pipeline (e : Bool) (l l' : List AttemptResult) :
    fixtureCounted e l = (specCountedOutcomes e l).map (fun r => r.runData) ∧
    (l.Perm l' → ((specDiscardAborted l).map (fun r => r.runIndex)).Nodup →
      fixtureCounted e l = fixtureCounted e l') ∧
    (∀ (fx : String) (runs : Nat) (ab : Nat → Bool)
      (agent : Nat → Option Unit → AgentRunResult),
      ((specDiscardAborted (runFixture e fx runs ab agent)).map
        (fun r => r.runIndex)).Nodup) := by
  refine ⟨?_, ?_, fun fx runs ab agent => runFixture_runIndex_nodup e fx runs ab agent⟩
  · show countRunData e (sortByRunIndex (l.filter (fun r => !r.aborted))) = _
    rw [countRunData_eq_map, countAttempts_eq_specTruncate]
    rfl
  · intro hperm hnd
    have hpf : (l.filter (fun r => !r.aborted)).Perm (l'.filter (fun r => !r.aborted)) :=
      hperm.filter _
    have hps : (sortByRunIndex (l.filter (fun r => !r.aborted))).Perm
        (sortByRunIndex (l'.filter (fun r => !r.aborted))) :=
      ((List.perm_insertionSort byRunIndex _).trans hpf).trans
        (List.perm_insertionSort byRunIndex _).symm
    have hs₁ : (sortByRunIndex (l.filter (fun r => !r.aborted))).Sorted byRunIndex :=
      List.sorted_insertionSort byRunIndex _
    have hs₂ : (sortByRunIndex (l'.filter (fun r => !r.aborted))).Sorted byRunIndex :=
      List.sorted_insertionSort byRunIndex _
    have hnd₁ : ((sortByRunIndex (l.filter (fun r => !r.aborted))).map
        (fun r => r.runIndex)).Nodup :=
      (((List.perm_insertionSort byRunIndex _).map _).nodup_iff).mpr hnd
    have heq := sorted_nodup_eq hps hs₁ hs₂ hnd₁
    show countRunData e (sortByRunIndex (l.filter (fun r => !r.aborted))) = _
    rw [heq]
    rfl

/-- Witness for C1: two completion orders of the same three outcomes
(fail at index 0, pass at index 1, aborted at index 2) yield the same
counted sequence. -/
theorem c1_witness :
    ([outcomeB, outcomeA, outcomeC].Perm [outcomeA, outcomeC, outcomeB] ∧
      ((specDiscardAborted [outcomeB, outcomeA, outcomeC]).map
        (fun r => r.runIndex)).Nodup) ∧
    fixtureCounted true [outcomeB, outcomeA, outcomeC] =
      fixtureCounted true [outcomeA, outcomeC, outcomeB] :=
  ⟨⟨by decide, by decide⟩,
    (c1_counted_matches_spec_pipeline true [outcomeB, outcomeA, outcomeC]
      [outcomeA, outcomeC, outcomeB]).2.1 (by decide) (by decide)⟩

/-- C2: with earlyExit enabled, whenever some counted run passed, the
counted sequence is a prefix of the sorted non-aborted outcomes ending at
the first passing run: exactly the last counted outcome is passed, every
counted outcome's run index is at most that of the final pass, and every
outcome with a larger run index is excluded even though it executed. -/
theorem c2_earlyExit_counted_ends_at_first_pass (l : List AttemptResult)
    (h : ∃ x ∈ fixtureCountedAttempts true l,
      x.runData.result.status = RunStatus.passed) :
    fixtureCountedAttempts true l <+:
        sortByRunIndex (l.filter (fun r => !r.aborted)) ∧
    fixtureCounted true l = (fixtureCountedAttempts true l).map (fun r => r.runData) ∧
    ∃ p, (fixtureCountedAttempts true l).getLast? = some p ∧
      p.runData.result.status = RunStatus.passed ∧
      (∀ x ∈ (fixtureCountedAttempts true l).dropLast,
        x.runData.result.status = RunStatus.failed) ∧
      (∀ x ∈ fixtureCountedAttempts true l, x.runIndex ≤ p.runIndex) ∧
      (∀ r ∈ sortByRunIndex (l.filter (fun r => !r.aborted)),
        p.runIndex < r.runIndex → r ∉ fixtureCountedAttempts true l) := by
  have hpre : fixtureCountedAttempts true l <+:
      sortByRunIndex (l.filter (fun r => !r.aborted)) :=
    countAttempts_prefixOf true _
  refine ⟨hpre, countRunData_eq_map true _, ?_⟩
  obtain ⟨p, hp1, hp2⟩ := countAttempts_getLast_passed _ h
  have hsorted : (sortByRunIndex (l.filter (fun r => !r.aborted))).Sorted byRunIndex :=
    List.sorted_insertionSort byRunIndex _
  have hcsorted : (fixtureCountedAttempts true l).Sorted byRunIndex :=
    List.Pairwise.sublist hpre.sublist hsorted
  have hle : ∀ x ∈ fixtureCountedAttempts true l, x.runIndex ≤ p.runIndex :=
    sorted_le_getLast _ hcsorted p hp1
  refine ⟨p, hp1, hp2, countAttempts_dropLast_failed _, hle, ?_⟩
  intro r _ hgt hmem
  exact absurd (hle r hmem) (Nat.not_le_of_lt hgt)

/-- Witness for C2: outcomes fail at index 0 and pass at index 1; the
counted sequence is a prefix of the sorted non-aborted outcomes. -/
theorem c2_witness :
    (∃ x ∈ fixtureCountedAttempts true [outcomeB, outcomeA],
        x.runData.result.status = RunStatus.passed) ∧
    fixtureCountedAttempts true [outcomeB, outcomeA] <+:
        sortByRunIndex ([outcomeB, outcomeA].filter (fun r => !r.aborted)) :=
  ⟨by decide,
    (c2_earlyExit_counted_ends_at_first_pass [outcomeB, outcomeA] (by decide)).1⟩

theorem runAttempt_aborted_iff {σ : Type} (e : Bool) (sig : σ)
    (agent : Option σ → AgentRunResult) (fx : String) (i : Nat) :
    (runAttempt e sig false agent fx i).aborted = true ↔
      ((agent (attemptSignal e sig)).error = some "Aborted" ∨
       (agent (attemptSignal e sig)).error = some "Aborted before start") := by
  by_cases hcond : (agent (attemptSignal e sig)).error = some "Aborted" ∨
      (agent (attemptSignal e sig)).error = some "Aborted before start"
  · simp [runAttempt, hcond]
  · simp [runAttempt, hcond]

/-- C6: with earlyExit disabled the Agent is invoked with no cancellation
signal at all (the signal option is undefined); with earlyExit enabled
the fixture's signal is attached.  Consequently, under earlyExit=false
runAttempt depends on the agent only through its no-signal behavior. -/
theorem c6_no_signal_when_earlyExit_disabled :
    ∀ (σ : Type) (sig : σ),
      attemptSignal false sig = none ∧
      attemptSignal true sig = some sig ∧
      ∀ (ab : Bool) (agent : Option σ → AgentRunResult) (fx : String) (i : Nat),
        runAttempt false sig ab agent fx i =
          runAttempt false sig ab (fun _ => agent none) fx i := by
  intro σ sig
  exact ⟨rfl, rfl, fun ab agent fx i => rfl⟩

/-- C7: an attempt whose fixture signal is already cancelled at start
completes immediately as aborted with zero duration, independent of the
agent (the agent is never invoked). -/
theorem c7_already_aborted_short_circuits :
    ∀ (σ : Type) (e : Bool) (sig : σ)
      (agent agent' : Option σ → AgentRunResult) (fx : String) (i : Nat),
      runAttempt e sig true agent fx i =
        { fixtureName := fx, runIndex := i
        , runData := abortedRunData 0, aborted := true } ∧
      (runAttempt e sig true agent fx i).runData.result.duration = 0 ∧
      runAttempt e sig true agent fx i = runAttempt e sig true agent' fx i := by
  intro σ e sig agent agent' fx i
  exact ⟨rfl, rfl, rfl⟩

/-- An agent result that failed genuinely but whose error text happens to
be exactly 'Aborted'. -/
def abortedTextAgentResult : AgentRunResult :=
  { success := false, output := "", error := some "Aborted", duration := 5000
  , transcript := none, testOutput := none, scriptsOutputs := [] }

/-- C10: the scheduler classifies a non-short-circuited attempt as
aborted exactly when the agent's returned error string is
character-for-character 'Aborted' or 'Aborted before start'; hence an
agent outcome that genuinely failed with error text exactly 'Aborted' is
silently dropped from totalRuns even with earlyExit disabled and no
cancellation ever requested. -/
theorem c10_aborted_classified_by_error_text :
    (∀ (σ : Type) (e : Bool) (sig : σ) (agent : Option σ → AgentRunResult)
        (fx : String) (i : Nat),
      (runAttempt e sig false agent fx i).aborted = true ↔
        ((agent (attemptSignal e sig)).error = some "Aborted" ∨
         (agent (attemptSignal e sig)).error = some "Aborted before start")) ∧
    (runExperimentModel false 1 ["fx"] (fun _ _ => false)
        (fun _ _ _ => abortedTextAgentResult)).map (fun s => s.totalRuns) = [0] := by
  constructor
  · intro σ e sig agent fx i
    exact runAttempt_aborted_iff e sig agent fx i
  · decide

/-- C3 counterexample: with earlyExit disabled and runs=1, an agent
outcome that failed with error text exactly 'Aborted' is excluded, so the
fixture summary's totalRuns is 0, not the configured 1. -/
theorem c3_counterexample_aborted_text_excluded :
    ¬ ∀ s ∈ runExperimentModel false 1 ["fx"] (fun _ _ => false)
        (fun _ _ _ => abortedTextAgentResult), s.totalRuns = 1 := by
  decide

/-- C3 (amended): with earlyExit disabled every configured attempt is
invoked, each with no cancellation signal (the already-aborted check can
never fire because the controller is only aborted under earlyExit), and —
provided no agent result carries the exact error text 'Aborted' or
'Aborted before start' — no outcome is excluded and the summary's
totalRuns equals the configured runs. -/
theorem c3_earlyExit_off_counts_all (fx : String) (runs : Nat)
    (ab : Nat → Bool) (agent : Nat → Option Unit → AgentRunResult)
    (h : ∀ i, i < runs → (agent i none).error ≠ some "Aborted" ∧
      (agent i none).error ≠ some "Aborted before start") :
    runFixture false fx runs ab agent =
      runFixture false fx runs (fun _ => false) (fun i _ => agent i none) ∧
    fixtureCounted false (runFixture false fx runs ab agent) =
      (List.range runs).map (fun i => agentResultToEvalRunData (agent i none)) ∧
    (createEvalSummary fx
      (fixtureCounted false (runFixture false fx runs ab agent))).totalRuns = runs := by
  have hstep : ∀ i ∈ List.range runs,
      runAttempt false () (false && ab i) (agent i) fx i =
        { fixtureName := fx, runIndex := i
        , runData := agentResultToEvalRunData (agent i none), aborted := false } := by
    intro i hi
    obtain ⟨h1, h2⟩ := h i (List.mem_range.mp hi)
    simp [runAttempt, attemptSignal, h1, h2]
  have hresults : runFixture false fx runs ab agent =
      (List.range runs).map (fun i =>
        { fixtureName := fx, runIndex := i
        , runData := agentResultToEvalRunData (agent i none)
        , aborted := false : AttemptResult }) :=
    List.map_congr_left hstep
  have hfilter : (runFixture false fx runs ab agent).filter (fun r => !r.aborted) =
      runFixture false fx runs ab agent := by
    rw [List.filter_eq_self]
    intro a ha
    rw [hresults] at ha
    obtain ⟨i, _, rfl⟩ := List.mem_map.mp ha
    rfl
  have hsorted : (runFixture false fx runs ab agent).Sorted byRunIndex := by
    rw [hresults]
    refine List.pairwise_map.mpr ?_
    exact (List.pairwise_le_range runs).imp (fun hij => hij)
  have hsort : sortByRunIndex (runFixture false fx runs ab agent) =
      runFixture false fx runs ab agent :=
    List.Sorted.insertionSort_eq hsorted
  have hcounted : fixtureCounted false (runFixture false fx runs ab agent) =
      (List.range runs).map (fun i => agentResultToEvalRunData (agent i none)) := by
    show countRunData false _ = _
    rw [hfilter, hsort, countRunData_false, hresults, List.map_map]
    rfl
  refine ⟨rfl, hcounted, ?_⟩
  show ((fixtureCounted false (runFixture false fx runs ab agent)).map
    (fun r => r.result)).length = runs
  rw [hcounted, List.length_map, List.length_map, List.length_range]

/-- A successful agent result with no error text. -/
def okAgentResult : AgentRunResult :=
  { success := true, output := "done", error := none, duration := 1000
  , transcript := none, testOutput := none, scriptsOutputs := [] }

/-- Witness for the amended C3: two runs, both succeeding, are both
counted with earlyExit disabled. -/
theorem c3_witness :
    (∀ i, i < 2 → ((fun _ (_ : Option Unit) => okAgentResult) i none).error ≠ some "Aborted" ∧
        ((fun _ (_ : Option Unit) => okAgentResult) i none).error ≠ some "Aborted before start") ∧
    (createEvalSummary "fx" (fixtureCounted false
        (runFixture false "fx" 2 (fun _ => false)
          (fun _ _ => okAgentResult)))).totalRuns = 2 :=
  ⟨by decide,
    (c3_earlyExit_off_counts_all "fx" 2 (fun _ => false) (fun _ _ => okAgentResult)
      (by decide)).2.2⟩

theorem foldl_add_duration (l : List EvalRunResult) (a : ℚ) :
    l.foldl (fun sum r => sum + r.duration) a =
      a + (l.map (fun r => r.duration)).sum := by
  induction l generalizing a with
  | nil => simp
  | cons r rs ih => simp [ih, add_assoc]

/-- C4: the summary aggregator is the stated pure reduction — totalRuns
is the list length, passedRuns counts passed results, passRate and
meanDuration are the guarded ratios, an empty input yields the all-zero
summary, and passedRuns never exceeds totalRuns. -/
theorem c4_summary_pure_reduction (name : String) (runData : List EvalRunData) :
    (createEvalSummary name runData).totalRuns = runData.length ∧
    (createEvalSummary name runData).passedRuns =
      ((runData.map (fun r => r.result)).filter
        (fun r => r.status = RunStatus.passed)).length ∧
    (createEvalSummary name runData).passRate =
      (if runData.length = 0 then 0 else
        ((createEvalSummary name runData).passedRuns : ℚ) / (runData.length : ℚ) * 100) ∧
    (createEvalSummary name runData).meanDuration =
      (if runData.length = 0 then 0 else
        (runData.map (fun r => r.result.duration)).sum / (runData.length : ℚ)) ∧
    createEvalSummary name [] =
      { name := name, totalRuns := 0, passedRuns := 0, passRate := 0
      , meanDuration := 0, runs := [] } ∧
    (createEvalSummary name runData).passedRuns ≤ (createEvalSummary name runData).totalRuns := by
  refine ⟨by simp [createEvalSummary], rfl, ?_, ?_, by simp [createEvalSummary], ?_⟩
  · rcases Nat.eq_zero_or_pos runData.length with hz | hpos
    · simp [createEvalSummary, hz]
    · have hne : ¬ runData.length = 0 := Nat.pos_iff_ne_zero.mp hpos
      simp only [createEvalSummary, List.length_map]
      rw [if_pos hpos, if_neg hne]
  · rcases Nat.eq_zero_or_pos runData.length with hz | hpos
    · simp [createEvalSummary, hz]
    · have hne : ¬ runData.length = 0 := Nat.pos_iff_ne_zero.mp hpos
      simp only [createEvalSummary, List.length_map]
      rw [if_pos hpos, if_neg hne, foldl_add_duration, zero_add, List.map_map]
      rfl
  · show ((runData.map (fun r => r.result)).filter _).length ≤
      (runData.map (fun r => r.result)).length
    exact List.length_filter_le _ _

theorem runAttemptE_ok {σ : Type} (e : Bool) (sig : σ) (ab : Bool)
    (agent : Option σ → AgentRunResult) (fx : String) (i : Nat) :
    runAttemptE e sig ab (fun s => Except.ok (agent s)) fx i =
      Except.ok (runAttempt e sig ab agent fx i) := by
  by_cases hab : ab
  · simp [runAttemptE, runAttempt, hab]
  · by_cases hcond : (agent (attemptSignal e sig)).error = some "Aborted" ∨
        (agent (attemptSignal e sig)).error = some "Aborted before start"
    · simp [runAttemptE, runAttempt, hab, hcond]
    · simp [runAttemptE, runAttempt, hab, hcond]

theorem sequenceExcept_map_ok {α : Type} (l : List α) :
    sequenceExcept (l.map Except.ok) = Except.ok l := by
  induction l with
  | nil => rfl
  | cons a rest ih => simp [sequenceExcept, ih]

/-- C5 counterexample: the unguarded 'await sandbox.stop()' in the finally
block of agents/claude-code.ts (lines 225-233) can reject after the catch
has already converted an unexpected error into a failed result; the
rejection replaces that result and escapes Agent.run; runAttempt
(runner.ts lines 101-156) has no catch, so the one Promise.all rejects and
no ExperimentResults is produced at all. -/
theorem c5_counterexample_teardown_rejects :
    claudeCodeRun false false false true (AgentBody.err "unexpected boom")
        (some "sandbox stop failed") 7000 "" =
      Except.error "sandbox stop failed" ∧
    runExperimentE false 1 ["fx"] (fun _ _ => false)
        (fun _ _ _ => claudeCodeRun false false false true (AgentBody.err "unexpected boom")
          (some "sandbox stop failed") 7000 "") =
      Except.error "sandbox stop failed" ∧
    ∀ evals, runExperimentE false 1 ["fx"] (fun _ _ => false)
        (fun _ _ _ => claudeCodeRun false false false true (AgentBody.err "unexpected boom")
          (some "sandbox stop failed") 7000 "") ≠ Except.ok evals := by
  have h2 : runExperimentE false 1 ["fx"] (fun _ _ => false)
      (fun _ _ _ => claudeCodeRun false false false true (AgentBody.err "unexpected boom")
        (some "sandbox stop failed") 7000 "") =
      Except.error "sandbox stop failed" := by rfl
  refine ⟨rfl, h2, ?_⟩
  intro evals h
  rw [h2] at h
  exact Except.noConfusion h

/-- C5 (amended): an unexpected error raised inside the agent's try body
(abort flag unset) is caught at the attempt boundary and converted into a
failed result carrying the error text, and — provided the finally-block
teardown is skipped or does not reject — the attempt returns that result
normally and the scheduler completes with one summary per fixture, in
order.  When the teardown rejects after the catch, the rejection escapes
the boundary and the whole experiment rejects with no results (see the
counterexample). -/
theorem c5_error_caught_unless_teardown_rejects (msg : String) (elapsedMs : ℚ)
    (out : String) :
    (∀ stopError, claudeCodeRun false false false false (AgentBody.err msg)
        stopError elapsedMs out =
      Except.ok { success := false, output := out, error := some msg
                , duration := elapsedMs, transcript := none, testOutput := none
                , scriptsOutputs := [] }) ∧
    (claudeCodeRun false false false true (AgentBody.err msg) none elapsedMs out =
      Except.ok { success := false, output := out, error := some msg
                , duration := elapsedMs, transcript := none, testOutput := none
                , scriptsOutputs := [] }) ∧
    ∀ (e : Bool) (runs : Nat) (fixtures : List String) (ab : String → Nat → Bool)
      (agT : String → Nat → Option Unit → AgentRunResult),
      ∃ evals, runExperimentE e runs fixtures ab
          (fun fx i s => Except.ok (agT fx i s)) = Except.ok evals ∧
        evals.map (fun s => s.name) = fixtures := by
  refine ⟨fun stopError => rfl, rfl, ?_⟩
  intro e runs fixtures ab agT
  have hinner : ∀ fx, (List.range runs).map (fun i =>
      runAttemptE e () (e && ab fx i) (fun s => Except.ok (agT fx i s)) fx i) =
      ((List.range runs).map (fun i =>
        runAttempt e () (e && ab fx i) (agT fx i) fx i)).map Except.ok := by
    intro fx
    rw [List.map_map]
    exact List.map_congr_left
      (fun i _ => runAttemptE_ok e () (e && ab fx i) (agT fx i) fx i)
  have h1 : (fixtures.flatMap (fun fx => (List.range runs).map (fun i =>
      runAttemptE e () (e && ab fx i) (fun s => Except.ok (agT fx i s)) fx i))) =
      (fixtures.flatMap (fun fx => (List.range runs).map (fun i =>
        runAttempt e () (e && ab fx i) (agT fx i) fx i))).map Except.ok := by
    induction fixtures with
    | nil => rfl
    | cons fx rest ih =>
      simp only [List.flatMap_cons, List.map_append, ih, hinner fx]
  have h2 : runExperimentE e runs fixtures ab (fun fx i s => Except.ok (agT fx i s)) =
      Except.ok (fixtures.map (fun fx =>
        createEvalSummary fx (fixtureCounted e
          ((fixtures.flatMap (fun fx2 => (List.range runs).map (fun i =>
            runAttempt e () (e && ab fx2 i) (agT fx2 i) fx2 i))).filter
              (fun r => r.fixtureName == fx))))) := by
    unfold runExperimentE
    rw [h1, sequenceExcept_map_ok]
  refine ⟨_, h2, ?_⟩
  rw [List.map_map]
  have hname : ∀ fx ∈ fixtures, ((fun s => EvalSummary.name s) ∘ (fun fx =>
      createEvalSummary fx (fixtureCounted e
        ((fixtures.flatMap (fun fx2 => (List.range runs).map (fun i =>
          runAttempt e () (e && ab fx2 i) (agT fx2 i) fx2 i))).filter
            (fun r => r.fixtureName == fx))))) fx = id fx :=
    fun fx _ => rfl
  rw [List.map_congr_left hname, List.map_id]

/-- C9: the process exit code is 0 exactly when every fixture summary has
passedRuns equal to totalRuns, and 1 (non-zero) exactly otherwise. -/
theorem c9_exit_code_zero_iff_all_passed (evals : List EvalSummary) :
    (processExitCode evals = 0 ↔ ∀ s ∈ evals, s.passedRuns = s.totalRuns) ∧
    (processExitCode evals = 1 ↔ ¬ ∀ s ∈ evals, s.passedRuns = s.totalRuns) ∧
    (processExitCode evals = 0 ∨ processExitCode evals = 1) := by
  by_cases h : evals.all (fun e => e.passedRuns == e.totalRuns) = true
  · have h' : ∀ s ∈ evals, s.passedRuns = s.totalRuns := by
      intro s hs
      exact beq_iff_eq.mp (List.all_eq_true.mp h s hs)
    have hc : processExitCode evals = 0 := by simp [processExitCode, h]
    refine ⟨⟨fun _ => h', fun _ => hc⟩, ⟨?_, fun hn => absurd h' hn⟩, Or.inl hc⟩
    intro h1
    rw [hc] at h1
    exact absurd h1 (by decide)
  · have h' : ¬ ∀ s ∈ evals, s.passedRuns = s.totalRuns := by
      intro hall
      exact h (List.all_eq_true.mpr (fun s hs => beq_iff_eq.mpr (hall s hs)))
    have hc : processExitCode evals = 1 := by simp [processExitCode, h]
    refine ⟨⟨?_, fun hall => absurd hall h'⟩, ⟨fun _ => h', fun _ => hc⟩, Or.inr hc⟩
    intro h0
    rw [hc] at h0
    exact absurd h0 (by decide)

theorem saveRun_entry_shapes (n : Nat) (rd : EvalRunData) (p : FilePath') (e : FileEntry)
    (hmem : (p, e) ∈ saveRun n rd) :
    (p = ["run-" ++ toString n, "transcript.jsonl"] ∧ isTruthy rd.transcript = true ∧
      e = FileEntry.raw (rd.transcript.getD "")) ∨
    ((∃ fn, p = ["run-" ++ toString n, "outputs", fn]) ∧ ∃ c, e = FileEntry.raw c) ∨
    (p = ["run-" ++ toString n, "result.json"] ∧
      e = FileEntry.jsonResult (runResultJson rd)) := by
  obtain ⟨res, t, oc⟩ := rd
  simp only [saveRun, List.append_assoc, List.mem_append] at hmem
  rcases hmem with h1 | h2 | h3 | h4
  · by_cases ht : isTruthy t
    · rw [if_pos ht] at h1
      simp only [List.mem_singleton, Prod.mk.injEq] at h1
      exact Or.inl ⟨h1.1, ht, h1.2⟩
    · rw [if_neg ht] at h1
      simp at h1
  · rcases oc with _ | ⟨eo, sc⟩
    · simp at h2
    · dsimp only at h2
      by_cases he : isTruthy eo
      · rw [if_pos he] at h2
        simp only [List.mem_singleton, Prod.mk.injEq] at h2
        exact Or.inr (Or.inl ⟨⟨"eval.txt", h2.1⟩, eo.getD "", h2.2⟩)
      · rw [if_neg he] at h2
        simp at h2
  · obtain ⟨q, _, hq⟩ := List.mem_map.mp h3
    simp only [Prod.mk.injEq] at hq
    exact Or.inr (Or.inl ⟨⟨q.1 ++ ".txt", hq.1.symm⟩, q.2, hq.2.symm⟩)
  · simp only [List.mem_singleton, Prod.mk.injEq] at h4
    exact Or.inr (Or.inr ⟨h4.1, h4.2⟩)

theorem saveRun_transcript_mem_iff (n : Nat) (rd : EvalRunData) :
    (["run-" ++ toString n, "transcript.jsonl"] ∈ (saveRun n rd).map Prod.fst) ↔
      isTruthy rd.transcript = true := by
  constructor
  · intro hmem
    obtain ⟨⟨p, e⟩, hw, hfst⟩ := List.mem_map.mp hmem
    rcases saveRun_entry_shapes n rd p e hw with ⟨hp, ht, _⟩ | ⟨⟨fn, hp⟩, _⟩ | ⟨hp, _⟩
    · exact ht
    · rw [hp] at hfst
      simp at hfst
    · rw [hp] at hfst
      simp at hfst
  · intro ht
    refine List.mem_map.mpr ⟨(["run-" ++ toString n, "transcript.jsonl"],
      FileEntry.raw (rd.transcript.getD "")), ?_, rfl⟩
    simp only [saveRun, List.append_assoc]
    refine List.mem_append.mpr (Or.inl ?_)
    rw [if_pos ht]
    exact List.mem_singleton.mpr rfl

theorem runTranscriptPath_isSome (rd : EvalRunData) :
    (runResultJson rd).transcriptPath.isSome = isTruthy rd.transcript := by
  by_cases ht : isTruthy rd.transcript <;>
    simp [runResultJson, runTranscriptPath, ht]

theorem transcriptPath_references_written (n : Nat) (rd : EvalRunData) (q : String)
    (hq : (runResultJson rd).transcriptPath = some q) :
    q = "./transcript.jsonl" ∧
      ["run-" ++ toString n, "transcript.jsonl"] ∈ (saveRun n rd).map Prod.fst := by
  by_cases ht : isTruthy rd.transcript
  · have hq2 : q = "./transcript.jsonl" := by
      simp [runResultJson, runTranscriptPath, ht] at hq
      exact hq.symm
    exact ⟨hq2, (saveRun_transcript_mem_iff n rd).mpr ht⟩
  · simp [runResultJson, runTranscriptPath, ht] at hq

theorem outputPaths_references_written (n : Nat) (rd : EvalRunData) (op : OutputPaths)
    (hop : (runResultJson rd).outputPaths = some op) :
    (∀ q, op.evalPath = some q → q = "./outputs/eval.txt" ∧
      ["run-" ++ toString n, "outputs", "eval.txt"] ∈ (saveRun n rd).map Prod.fst) ∧
    (∀ nm q, (nm, q) ∈ op.scripts → q = "./outputs/" ++ nm ++ ".txt" ∧
      ["run-" ++ toString n, "outputs", nm ++ ".txt"] ∈ (saveRun n rd).map Prod.fst) := by
  have hop2 : op = { evalPath := runEvalPath rd, scripts := runScriptPaths rd } := by
    by_cases hc : (runEvalPath rd).isSome || !(runScriptPaths rd).isEmpty
    · simp only [runResultJson, if_pos hc, Option.some.injEq] at hop
      exact hop.symm
    · simp only [runResultJson, if_neg hc] at hop
      exact absurd hop (by simp)
  subst hop2
  constructor
  · intro q hq
    rcases hoc : rd.outputContent with _ | oc
    · rw [runEvalPath, hoc] at hq
      exact absurd hq (by simp)
    · by_cases he : isTruthy oc.evalOutput
      · rw [runEvalPath, hoc] at hq
        dsimp only at hq
        rw [if_pos he, Option.some.injEq] at hq
        refine ⟨hq.symm, ?_⟩
        refine List.mem_map.mpr ⟨(["run-" ++ toString n, "outputs", "eval.txt"],
          FileEntry.raw (oc.evalOutput.getD "")), ?_, rfl⟩
        simp only [saveRun, List.append_assoc]
        refine List.mem_append.mpr (Or.inr (List.mem_append.mpr (Or.inl ?_)))
        rw [hoc]
        dsimp only
        rw [if_pos he]
        exact List.mem_singleton.mpr rfl
      · rw [runEvalPath, hoc] at hq
        dsimp only at hq
        rw [if_neg he] at hq
        exact absurd hq (by simp)
  · intro nm q hq
    obtain ⟨⟨nm', c⟩, hmem, heq⟩ := List.mem_map.mp hq
    simp only [Prod.mk.injEq] at heq
    obtain ⟨h1, h2⟩ := heq
    subst h1
    refine ⟨h2.symm, ?_⟩
    refine List.mem_map.mpr ⟨(["run-" ++ toString n, "outputs", nm' ++ ".txt"],
      FileEntry.raw c), ?_, rfl⟩
    simp only [saveRun, List.append_assoc]
    refine List.mem_append.mpr (Or.inr (List.mem_append.mpr (Or.inr
      (List.mem_append.mpr (Or.inl ?_)))))
    exact List.mem_map.mpr ⟨(nm', c), hmem, rfl⟩

theorem saveRun_resultJson_mem (n : Nat) (rd : EvalRunData) :
    (["run-" ++ toString n, "result.json"],
      FileEntry.jsonResult (runResultJson rd)) ∈ saveRun n rd := by
  simp only [saveRun, List.append_assoc]
  exact List.mem_append.mpr (Or.inr (List.mem_append.mpr (Or.inr (List.mem_append.mpr
    (Or.inr (List.mem_singleton.mpr rfl))))))

theorem saveRun_resultJson_unique (n : Nat) (rd : EvalRunData) (p : FilePath')
    (e : FileEntry) (hmem : (p, e) ∈ saveRun n rd)
    (hp : p = ["run-" ++ toString n, "result.json"]) :
    e = FileEntry.jsonResult (runResultJson rd) := by
  rcases saveRun_entry_shapes n rd p e hmem with ⟨hp2, _, _⟩ | ⟨⟨fn, hp2⟩, _⟩ | ⟨_, he⟩
  · rw [hp] at hp2
    simp at hp2
  · rw [hp] at hp2
    simp at hp2
  · exact he

theorem saveResultsModel_layout (evals : List EvalSummary) (p : FilePath') (e : FileEntry)
    (hmem : (p, e) ∈ saveResultsModel evals) :
    (∀ c, e = FileEntry.raw c →
      (∃ fx d, p = [fx, d, "transcript.jsonl"]) ∨
        ∃ fx d fn, p = [fx, d, "outputs", fn]) ∧
    (∀ fx, p = [fx, "summary.json"] → ∃ a b c d, e = FileEntry.jsonSummary a b c d) := by
  obtain ⟨s, _, hw⟩ := List.mem_flatMap.mp hmem
  rcases List.mem_cons.mp hw with hhead | htail
  · simp only [Prod.mk.injEq] at hhead
    obtain ⟨hp, he⟩ := hhead
    constructor
    · intro c hc
      rw [hc] at he
      exact absurd he (by simp)
    · intro fx _
      exact ⟨_, _, _, _, he⟩
  · obtain ⟨i, _, hmem2⟩ := List.mem_flatMap.mp htail
    obtain ⟨⟨p', e'⟩, hw2, heq⟩ := List.mem_map.mp hmem2
    simp only [Prod.mk.injEq] at heq
    obtain ⟨hp, he⟩ := heq
    rcases saveRun_entry_shapes (i + 1) _ p' e' hw2 with
      ⟨hp2, _, _⟩ | ⟨⟨fn, hp2⟩, c2, he2⟩ | ⟨hp2, he2⟩
    · constructor
      · intro c hc
        exact Or.inl ⟨s.name, "run-" ++ toString (i + 1), by rw [← hp, hp2]⟩
      · intro fx hfx
        rw [← hp, hp2] at hfx
        simp at hfx
    · constructor
      · intro c hc
        exact Or.inr ⟨s.name, "run-" ++ toString (i + 1), fn, by rw [← hp, hp2]⟩
      · intro fx hfx
        rw [← hp, hp2] at hfx
        simp at hfx
    · constructor
      · intro c hc
        rw [← he, he2] at hc
        exact absurd hc (by simp)
      · intro fx hfx
        rw [← hp, hp2] at hfx
        simp at hfx

/-- C8: raw transcript and output content are written only to files —
transcript.jsonl and files under outputs — and never into result.json or
summary.json; a run's transcript.jsonl is written exactly when a truthy
transcript was captured; and every transcriptPath/outputPaths reference
in result.json points at a file the store actually wrote. -/
theorem c8_raw_content_only_in_files (n : Nat) (rd : EvalRunData)
    (evals : List EvalSummary) :
    ((["run-" ++ toString n, "transcript.jsonl"] ∈ (saveRun n rd).map Prod.fst) ↔
      isTruthy rd.transcript = true) ∧
    ((runResultJson rd).transcriptPath.isSome = isTruthy rd.transcript) ∧
    (∀ q, (runResultJson rd).transcriptPath = some q →
      q = "./transcript.jsonl" ∧
        ["run-" ++ toString n, "transcript.jsonl"] ∈ (saveRun n rd).map Prod.fst) ∧
    (∀ op, (runResultJson rd).outputPaths = some op →
      (∀ q, op.evalPath = some q → q = "./outputs/eval.txt" ∧
        ["run-" ++ toString n, "outputs", "eval.txt"] ∈ (saveRun n rd).map Prod.fst) ∧
      (∀ nm q, (nm, q) ∈ op.scripts → q = "./outputs/" ++ nm ++ ".txt" ∧
        ["run-" ++ toString n, "outputs", nm ++ ".txt"] ∈ (saveRun n rd).map Prod.fst)) ∧
    (∀ p e, (p, e) ∈ saveRun n rd → ∀ c, e = FileEntry.raw c →
      p = ["run-" ++ toString n, "transcript.jsonl"] ∨
        ∃ fn, p = ["run-" ++ toString n, "outputs", fn]) ∧
    ((["run-" ++ toString n, "result.json"],
        FileEntry.jsonResult (runResultJson rd)) ∈ saveRun n rd) ∧
    (∀ p e, (p, e) ∈ saveRun n rd → p = ["run-" ++ toString n, "result.json"] →
      e = FileEntry.jsonResult (runResultJson rd)) ∧
    (∀ p e, (p, e) ∈ saveResultsModel evals →
      (∀ c, e = FileEntry.raw c →
        (∃ fx d, p = [fx, d, "transcript.jsonl"]) ∨
          ∃ fx d fn, p = [fx, d, "outputs", fn]) ∧
      (∀ fx, p = [fx, "summary.json"] →
        ∃ a b c d, e = FileEntry.jsonSummary a b c d)) := by
  refine ⟨saveRun_transcript_mem_iff n rd, runTranscriptPath_isSome rd,
    fun q hq => transcriptPath_references_written n rd q hq,
    fun op hop => outputPaths_references_written n rd op hop,
    ?_, saveRun_resultJson_mem n rd,
    fun p e hm hp => saveRun_resultJson_unique n rd p e hm hp,
    fun p e hm => saveResultsModel_layout evals p e hm⟩
  intro p e hm c hc
  rcases saveRun_entry_shapes n rd p e hm with ⟨hp2, _, _⟩ | ⟨⟨fn, hp2⟩, _⟩ | ⟨_, he2⟩
  · exact Or.inl hp2
  · exact Or.inr ⟨fn, hp2⟩
  · rw [he2] at hc
    exact absurd hc (by simp)

/-- A run with a transcript, an EVAL output and one script output. -/
def sampleRunData : EvalRunData :=
  { result := { status := RunStatus.passed, error := none, duration := 2 }
  , transcript := some "assistant line"
  , outputContent := some
      { evalOutput := some "ok", scripts := some [("build", "built fine")] } }

/-- Witness for C8: on a concrete run with a transcript and outputs, the
path references of result.json are backed by written files. -/
theorem c8_witness :
    ((runResultJson sampleRunData).transcriptPath = some "./transcript.jsonl" ∧
      (runResultJson sampleRunData).outputPaths =
        some { evalPath := some "./outputs/eval.txt"
             , scripts := [("build", "./outputs/build.txt")] }) ∧
    ("./transcript.jsonl" = "./transcript.jsonl" ∧
      ["run-" ++ toString 1, "transcript.jsonl"] ∈
        (saveRun 1 sampleRunData).map Prod.fst) ∧
    ("./outputs/build.txt" = "./outputs/" ++ "build" ++ ".txt" ∧
      ["run-" ++ toString 1, "outputs", "build" ++ ".txt"] ∈
        (saveRun 1 sampleRunData).map Prod.fst) :=
  ⟨⟨by decide, by decide⟩,
    (c8_raw_content_only_in_files 1 sampleRunData []).2.2.1 "./transcript.jsonl" (by decide),
    ((c8_raw_content_only_in_files 1 sampleRunData []).2.2.2.1
      { evalPath := some "./outputs/eval.txt", scripts := [("build", "./outputs/build.txt")] }
      (by decide)).2 "build" "./outputs/build.txt" (by decide)⟩
